import Mathlib

/-!
Verification development for the kvt staged-edit / undo / commit engine.

Strings from the Python source are embedded as lists of characters
(`Str := List Char`), so every definition below is executable and every
concrete scenario can be settled by `decide` / `rfl`.

Embedded here, faithfully to the source:
 - `kvt/models.py`            : `EnvVar`, `ActionKind`, `Action`
 - `kvt/app.py`               : `_stage_set`, `_stage_delete`, `_stage_rename`,
                                `action_undo`, `_commit_staged`
 - `kvt/domain/secrets.py`    : `parse_dotenv_blob`, `encode_dotenv_blob`
 - `kvt/providers_azure_hybrid.py` : the hybrid provider's cache and `get`
-/

namespace Kvt

/-! ## Definitions (embedded from the source) -/

/-- Python strings, embedded as character lists. -/
abbrev Str := List Char

/-- `kvt/models.py` `EnvVar`: a key/value pair, possibly flagged multiline.
`is_multiline` defaults to `False` in the source. -/
structure EnvVar where
  key : Str
  value : Str
  is_multiline : Bool := false
deriving DecidableEq, Repr

/-- `kvt/models.py` `ActionKind`: the three staged mutation kinds. -/
inductive ActionKind where
  | SET
  | DELETE
  | RENAME
deriving DecidableEq, Repr

/-- `kvt/models.py` `Action`: a reversible mutation record.
`previous_value` and `old_key` default to `None` in the source. -/
structure Action where
  kind : ActionKind
  key : Str
  value : Str
  previous_value : Option Str := none
  old_key : Option Str := none
deriving DecidableEq, Repr

/-- The staging-relevant state of `KvtApp`: the local working copy
(`_all_vars`), the action log (`_undo_stack`) and the `dirty` flag. -/
structure StageState where
  all_vars : List EnvVar
  undo_stack : List Action
  dirty : Bool
deriving DecidableEq, Repr

/-- `next((v.value for v in self._all_vars if v.key == key), None)`:
the value of the first working-copy entry with the given key. -/
def firstVal (vars : List EnvVar) (key : Str) : Option Str :=
  (vars.find? (fun v => v.key == key)).map (·.value)

/-- The `for v in self._all_vars: if v.key == key: v.value = value; break`
loop from `_stage_set`: update the value of the first entry with this key. -/
def setFirstValue (vars : List EnvVar) (key value : Str) : List EnvVar :=
  match vars with
  | [] => []
  | v :: rest =>
    if v.key == key then { v with value := value } :: rest
    else v :: setFirstValue rest key value

/-- The in-place `var.key = new_key` from `_stage_rename` (and the reverse
loop in `action_undo`): re-key the first entry whose key matches. -/
def renameFirst (vars : List EnvVar) (key newKey : Str) : List EnvVar :=
  match vars with
  | [] => []
  | v :: rest =>
    if v.key == key then { v with key := newKey } :: rest
    else v :: renameFirst rest key newKey

/-- `KvtApp._stage_set` (`kvt/app.py` lines 257-276): stage an add or edit.
Records `previous_value` from the *working copy*, updates the working copy,
appends a `SET` action and sets `dirty`. -/
def _stage_set (st : StageState) (key value : Str) : StageState :=
  let previous := firstVal st.all_vars key
  let vars' :=
    match previous with
    | none => st.all_vars ++ [{ key := key, value := value }]
    | some _ => setFirstValue st.all_vars key value
  { all_vars := vars',
    undo_stack := st.undo_stack ++
      [{ kind := .SET, key := key, value := value, previous_value := previous }],
    dirty := true }

/-- `KvtApp._stage_delete` (`kvt/app.py` lines 278-329): stage a delete,
collapsing against the most recent staged action covering the same key.
`self._undo_stack.remove(prior)` removes the first list element equal to
`prior`, which is `List.erase`. -/
def _stage_delete (st : StageState) (key : Str) : StageState :=
  match st.all_vars.find? (fun v => v.key == key) with
  | none => st
  | some existing =>
    let current_value := existing.value
    let prior := st.undo_stack.reverse.find? (fun a => a.key == key)
    let vars' := st.all_vars.filter (fun v => v.key != key)
    let stack' :=
      match prior with
      | none =>
        st.undo_stack ++ [{ kind := .DELETE, key := key, value := current_value }]
      | some p =>
        match p.kind, p.previous_value, p.old_key with
        | .SET, none, _ => st.undo_stack.erase p
        | .SET, some original_value, _ =>
          (st.undo_stack.erase p) ++
            [{ kind := .DELETE, key := key, value := original_value }]
        | .RENAME, _, some ok =>
          (st.undo_stack.erase p) ++
            [{ kind := .DELETE, key := ok, value := p.value }]
        | _, _, _ =>
          st.undo_stack ++ [{ kind := .DELETE, key := key, value := current_value }]
    { all_vars := vars', undo_stack := stack', dirty := !stack'.isEmpty }

/-- `KvtApp._stage_rename` (`kvt/app.py` lines 331-346): stage a rename by
re-keying the working-copy entry in place and appending a `RENAME` action. -/
def _stage_rename (st : StageState) (old_key new_key : Str) : StageState :=
  match st.all_vars.find? (fun v => v.key == old_key) with
  | none => st
  | some var =>
    { all_vars := renameFirst st.all_vars old_key new_key,
      undo_stack := st.undo_stack ++
        [{ kind := .RENAME, key := new_key, value := var.value, old_key := some old_key }],
      dirty := true }

/-- `KvtApp.action_undo` (`kvt/app.py` lines 624-653): pop the most recent
action and reverse it against the working copy only.  Undoing a `DELETE`
re-appends `EnvVar(key=action.key, value=action.value)` (with the default
`is_multiline=False`) at the end of the working copy. -/
def action_undo (st : StageState) : StageState :=
  match st.undo_stack.getLast? with
  | none => st
  | some action =>
    let stack' := st.undo_stack.dropLast
    let vars' :=
      match action.kind, action.previous_value, action.old_key with
      | .SET, none, _ => st.all_vars.filter (fun v => v.key != action.key)
      | .SET, some pv, _ => setFirstValue st.all_vars action.key pv
      | .DELETE, _, _ =>
        st.all_vars ++ [{ key := action.key, value := action.value }]
      | .RENAME, _, some ok => renameFirst st.all_vars action.key ok
      | .RENAME, _, none => st.all_vars
    { all_vars := vars', undo_stack := stack', dirty := !stack'.isEmpty }

/-- A secret provider as used by `_commit_staged`: `create`, `update` and
`delete` act on a provider state `σ` and either succeed with a new state or
fail (raise `AzureClientError`) leaving the state untouched. -/
structure Provider (σ : Type) where
  create : σ → Str → Str → Except Str σ
  update : σ → Str → Str → Except Str σ
  delete : σ → Str → Except Str σ

/-- Turn a provider-call result into (state after the call, error if any);
a failing call leaves the provider at `fallback`. -/
def callP {σ : Type} (r : Except Str σ) (fallback : σ) : σ × Option Str :=
  match r with
  | .ok s' => (s', none)
  | .error e => (fallback, some e)

/-- The per-action dispatch in `_commit_staged` (`kvt/app.py` lines 357-366):
`SET` with no previous value ⇒ `create`; `SET` with one ⇒ `update`;
`DELETE` ⇒ `delete`; `RENAME` with an old key ⇒ `delete(old_key)` then
`create(key, value)`.  An action matching no branch (e.g. a `RENAME` whose
`old_key` is `None`) performs no provider call and succeeds. -/
def applyAction {σ : Type} (P : Provider σ) (s : σ) (a : Action) : σ × Option Str :=
  match a.kind with
  | .SET =>
    match a.previous_value with
    | none => callP (P.create s a.key a.value) s
    | some _ => callP (P.update s a.key a.value) s
  | .DELETE => callP (P.delete s a.key) s
  | .RENAME =>
    match a.old_key with
    | some ok =>
      match P.delete s ok with
      | .ok s1 => callP (P.create s1 a.key a.value) s1
      | .error e => (s, some e)
    | none => (s, none)

/-- Run actions in order while they succeed; stop at the first failure. -/
def runPre {σ : Type} (P : Provider σ) : σ → List Action → σ × Option Str
  | s, [] => (s, none)
  | s, a :: rest =>
    match applyAction P s a with
    | (s', none) => runPre P s' rest
    | (s', some e) => (s', some e)

/-- The `for action in self._undo_stack` loop of `_commit_staged`: process
actions oldest-first; on the first failure remove every already-committed
action from the full stack (`self._undo_stack.remove(done)`, i.e. erase by
equality) and return with `dirty` untouched; on full success clear the stack
and clear `dirty`. -/
def commitGo {σ : Type} (P : Provider σ) (full : List Action) (d : Bool) :
    List Action → σ → List Action → List Action × σ × Bool
  | [], s, _ => ([], s, false)
  | a :: rest, s, committed =>
    match applyAction P s a with
    | (s', none) => commitGo P full d rest s' (committed ++ [a])
    | (s', some _) => (committed.foldl List.erase full, s', d)

/-- `KvtApp._commit_staged` (`kvt/app.py` lines 348-376), acting on the
staging state and a provider state. -/
def _commit_staged {σ : Type} (P : Provider σ) (st : StageState) (s : σ) :
    StageState × σ :=
  match commitGo P st.undo_stack st.dirty st.undo_stack s [] with
  | (stack', s', dirty') =>
    ({ st with undo_stack := stack', dirty := dirty' }, s')

/-- Concrete in-memory provider for the C1 witness: `create` fails on the
key `"F"`, otherwise the state is an ordered key/value list. -/
def witnessProvider : Provider (List (Str × Str)) where
  create s k v := if k = ['F'] then .error ['E'] else .ok (s ++ [(k, v)])
  update s k v := .ok (s.map fun p => if p.1 == k then (k, v) else p)
  delete s k := .ok (s.filter fun p => p.1 != k)

/-- Provider for the C3 counterexample: `delete` succeeds (filters the key
out), `create` always fails. -/
def renameFailProvider : Provider (List (Str × Str)) where
  create _ _ _ := .error ['E']
  update s _ _ := .ok s
  delete s k := .ok (s.filter fun p => p.1 != k)

/-- `HybridAzureProvider.__init__` (`providers_azure_hybrid.py` lines 23-28):
the value cache `self._data` maps every listed secret name to `None`
(not yet fetched). -/
def hybridInit (names : List Str) : List (Str × Option Str) :=
  names.map (fun n => (n, none))

/-- `HybridAzureProvider.get` (`providers_azure_hybrid.py` lines 41-42):
`self._data.get(key)` — returns the cached value, which is `None` both when
the key is absent from the dict and when its value has not been fetched. -/
def hybridGet (data : List (Str × Option Str)) (key : Str) : Option Str :=
  match data.find? (fun p => p.1 == key) with
  | none => none
  | some p => p.2

/-- `dict[key] = value` on an ordered map: update in place if the key is
present, else append (Python dict insertion-order semantics, as in the
providers' caches). -/
def msetA (s : List (Str × Str)) (k v : Str) : List (Str × Str) :=
  if s.any (fun p => p.1 == k) then s.map (fun p => if p.1 == k then (k, v) else p)
  else s ++ [(k, v)]

/-- An in-memory provider with dict semantics that never fails: the replay
target for the action log. -/
def memProvider : Provider (List (Str × Str)) where
  create s k v := .ok (msetA s k v)
  update s k v := .ok (msetA s k v)
  delete s k := .ok (s.filter fun p => p.1 != k)

/-- Replay an action log oldest-first against a synced provider state,
issuing the same per-action provider calls `_commit_staged` issues. -/
def replayA (s0 : List (Str × Str)) (log : List Action) : List (Str × Str) :=
  (runPre memProvider s0 log).1

/-- The C9 failing input: from the empty synced state, the user stages
`set("K","v")`, `rename("K"→"M")`, `set("K","w")` (a fresh add re-using the
renamed-away key), then `delete("M")`. -/
def c9State : StageState :=
  _stage_delete
    (_stage_set
      (_stage_rename
        (_stage_set ⟨[], [], false⟩ ['K'] ['v'])
        ['K'] ['M'])
      ['K'] ['w'])
    ['M']

/-- The whitespace characters removed by Python `str.strip()` (ASCII). -/
def isWS (c : Char) : Bool :=
  c == ' ' || c == '\t' || c == '\n' || c == '\r' || c == '\x0b' || c == '\x0c'

/-- Strip leading whitespace (the left half of Python `str.strip()`). -/
def trimL (l : Str) : Str := l.dropWhile isWS

/-- Strip trailing whitespace (the right half of Python `str.strip()`). -/
def trimR (l : Str) : Str := (l.reverse.dropWhile isWS).reverse

/-- Python `str.strip()`. -/
def pyStrip (l : Str) : Str := trimR (trimL l)

/-- `blob.split("\\n")`: split on the two-character escaped-newline marker,
scanning left to right. -/
def splitEsc : Str → List Str
  | [] => [[]]
  | [c] => [[c]]
  | c :: d :: rest =>
    if c == '\\' && d == 'n' then [] :: splitEsc rest
    else
      match splitEsc (d :: rest) with
      | l :: ls => (c :: l) :: ls
      | [] => [[c]]

/-- True iff the two-character escaped-newline marker occurs nowhere in the
string. -/
def markerFree : Str → Bool
  | [] => true
  | [_] => true
  | c :: d :: rest => !(c == '\\' && d == 'n') && markerFree (d :: rest)

/-- One iteration of the parse loop of `parse_dotenv_blob`
(`domain/secrets.py` lines 37-46): strip the line; skip it if blank or a
comment or without `=`; split on the first `=`; strip the key; drop the
entry if the key strips to empty. -/
def parseLine (line : Str) : Option EnvVar :=
  match pyStrip line with
  | [] => none
  | c :: rest =>
    if c = '#' then none
    else
      let stripped := c :: rest
      if stripped.contains '=' then
        let key := pyStrip (stripped.takeWhile (fun ch => ch != '='))
        let value := (stripped.dropWhile (fun ch => ch != '=')).tail
        if key.isEmpty then none else some { key := key, value := value }
      else none

/-- `parse_dotenv_blob` (`domain/secrets.py` lines 26-47). -/
def parse_dotenv_blob (blob : Str) : List EnvVar :=
  (splitEsc blob).filterMap parseLine

/-- The f-string `f"{v.key}={v.value}"` from `encode_dotenv_blob`. -/
def lineOf (v : EnvVar) : Str := v.key ++ '=' :: v.value

/-- `"\\n".join(lines)`. -/
def joinM : List Str → Str
  | [] => []
  | [l] => l
  | l :: l' :: ls => l ++ '\\' :: 'n' :: joinM (l' :: ls)

/-- `encode_dotenv_blob` (`domain/secrets.py` lines 50-59). -/
def encode_dotenv_blob (vars : List EnvVar) : Str := joinM (vars.map lineOf)

/-- A dotenv entry of the shape for which the round-trip holds: the
single-line flag, a non-empty key free of `=`, of a leading `#`, of
leading/trailing whitespace and of the escaped-newline marker, and a value
free of the marker and of trailing whitespace. -/
def RoundTrippable (v : EnvVar) : Prop :=
  v.is_multiline = false ∧ v.key ≠ [] ∧ trimL v.key = v.key ∧ trimR v.key = v.key ∧
  v.key.head? ≠ some '#' ∧ ('=' : Char) ∉ v.key ∧ markerFree v.key = true ∧
  markerFree v.value = true ∧ trimR v.value = v.value

instance (v : EnvVar) : Decidable (RoundTrippable v) := by
  unfold RoundTrippable
  infer_instance

/-! ## Sanity checks against the source test-suite examples -/

example :
    parse_dotenv_blob (['A', '=', '1'] ++ '\\' :: 'n' :: '\\' :: 'n' :: ['B', '=', '2']) =
      [⟨['A'], ['1'], false⟩, ⟨['B'], ['2'], false⟩] := by decide

example :
    parse_dotenv_blob ('#' :: ' ' :: 'h' :: '\\' :: 'n' :: ['A', '=', '1']) =
      [⟨['A'], ['1'], false⟩] := by decide

example :
    parse_dotenv_blob ['T', '=', 'a', '=', 'b'] = [⟨['T'], ['a', '=', 'b'], false⟩] := by
  decide

example : parse_dotenv_blob [' ', 'S', ' ', '=', 'v'] = [⟨['S'], ['v'], false⟩] := by decide

example : parse_dotenv_blob [] = [] := by decide

example :
    encode_dotenv_blob [⟨['A'], ['1'], false⟩, ⟨['B'], ['2'], false⟩] =
      ['A', '=', '1', '\\', 'n', 'B', '=', '2'] := by decide

/-! ## Helper lemmas -/

lemma find?_setFirstValue (vars : List EnvVar) (k v : Str) :
    (setFirstValue vars k v).find? (fun w => w.key == k) =
      (vars.find? (fun w => w.key == k)).map (fun w => { w with value := v }) := by
  induction vars with
  | nil => simp [setFirstValue]
  | cons w rest ih =>
    by_cases h : w.key == k
    · simp [setFirstValue, h, List.find?_cons, Option.map]
    · simp only [setFirstValue, h, Bool.false_eq_true, if_false]
      rw [List.find?_cons_of_neg _ (by simp_all), List.find?_cons_of_neg _ (by simp_all)]
      exact ih

lemma firstVal_setFirstValue (vars : List EnvVar) (k v orig : Str)
    (h : firstVal vars k = some orig) :
    firstVal (setFirstValue vars k v) k = some v := by
  unfold firstVal at h ⊢
  rw [find?_setFirstValue]
  rcases hf : vars.find? (fun w => w.key == k) with _ | w
  · simp [hf] at h
  · simp [hf]

lemma filter_setFirstValue (vars : List EnvVar) (k v : Str) :
    (setFirstValue vars k v).filter (fun w => w.key != k) =
      vars.filter (fun w => w.key != k) := by
  induction vars with
  | nil => simp [setFirstValue]
  | cons w rest ih =>
    by_cases h : w.key == k
    · have hb : (w.key != k) = false := by simp [bne, h]
      simp only [setFirstValue, h, if_true, List.filter_cons]
      rw [hb]
      simp
    · have hb : (w.key != k) = true := by simp [bne, h]
      simp only [setFirstValue, h, Bool.false_eq_true, if_false, List.filter_cons]
      rw [hb]
      simp [ih]

lemma find?_append_none {α : Type} (p : α → Bool) (l₁ l₂ : List α)
    (h : l₁.find? p = none) : (l₁ ++ l₂).find? p = l₂.find? p := by
  induction l₁ with
  | nil => simp
  | cons x rest ih =>
    rcases hx : p x with _ | _
    · rw [List.find?_cons_of_neg _ (by simp [hx])] at h
      rw [List.cons_append, List.find?_cons_of_neg _ (by simp [hx])]
      exact ih h
    · rw [List.find?_cons_of_pos _ hx] at h
      exact absurd h (by simp)

lemma filter_eq_self_of_find?_none (vars : List EnvVar) (k : Str)
    (h : vars.find? (fun w => w.key == k) = none) :
    vars.filter (fun w => w.key != k) = vars := by
  rw [List.filter_eq_self]
  intro w hw
  have := List.find?_eq_none.mp h w hw
  simpa [bne] using this

lemma callP_fail {σ : Type} (r : Except Str σ) (s : σ) (e : Str)
    (h : (callP r s).2 = some e) : (callP r s).1 = s := by
  cases r <;> simp [callP] at h ⊢

lemma foldl_erase_front (front rest : List Action) :
    List.foldl List.erase (front ++ rest) front = rest := by
  induction front with
  | nil => simp
  | cons f fr ih =>
    simp only [List.cons_append, List.foldl_cons, List.erase_cons_head]
    exact ih

lemma commitGo_fail_after {σ : Type} (P : Provider σ) (full : List Action) (d : Bool)
    (a : Action) (back : List Action) (e : Str) :
    ∀ (front : List Action) (s0 s1 : σ) (committed : List Action),
      runPre P s0 front = (s1, none) →
      (applyAction P s1 a).2 = some e →
      commitGo P full d (front ++ a :: back) s0 committed =
        ((committed ++ front).foldl List.erase full, (applyAction P s1 a).1, d) := by
  intro front
  induction front with
  | nil =>
    intro s0 s1 committed hfront hfail
    have hs : s0 = s1 := by simpa [runPre] using hfront
    subst hs
    rcases happ : applyAction P s0 a with ⟨s', o⟩
    rw [happ] at hfail
    simp only at hfail
    subst hfail
    simp [commitGo, happ]
  | cons ac fr ih =>
    intro s0 s1 committed hfront hfail
    rcases h0 : applyAction P s0 ac with ⟨sa, oa⟩
    rcases oa with _ | e0
    · have hrun : runPre P sa fr = (s1, none) := by
        simpa [runPre, h0] using hfront
      simp only [List.cons_append, commitGo, h0, List.append_eq]
      rw [ih sa s1 (committed ++ [ac]) hrun hfail]
      simp [List.append_assoc]
    · exfalso
      rw [runPre, h0] at hfront
      exact absurd (congrArg Prod.snd hfront) (by simp)

lemma dropWhile_append_stop (p : Char → Bool) (x : Char) (hx : p x = false)
    (a b : Str) : (a ++ x :: b).dropWhile p = a.dropWhile p ++ x :: b := by
  induction a with
  | nil => simp [List.dropWhile_cons, hx]
  | cons c a' ih =>
    by_cases hc : p c = true
    · simp [List.dropWhile_cons, hc, ih]
    · simp [List.dropWhile_cons, hc]

lemma dropWhile_idem (p : Char → Bool) (l : Str) :
    (l.dropWhile p).dropWhile p = l.dropWhile p := by
  induction l with
  | nil => simp
  | cons c l' ih =>
    by_cases hc : p c = true
    · simp [List.dropWhile_cons, hc, ih]
    · simp [List.dropWhile_cons, hc]

lemma trimL_append_eq (k v : Str) :
    trimL (k ++ '=' :: v) = trimL k ++ '=' :: v :=
  dropWhile_append_stop isWS '=' (by decide) k v

lemma trimR_append_eq (k v : Str) :
    trimR (k ++ '=' :: v) = k ++ '=' :: trimR v := by
  unfold trimR
  rw [List.reverse_append, List.reverse_cons, List.append_assoc]
  rw [show ([('=' : Char)] ++ k.reverse) = '=' :: k.reverse from rfl]
  rw [dropWhile_append_stop isWS '=' (by decide) v.reverse k.reverse]
  simp

lemma pyStrip_assignment (k v : Str) :
    pyStrip (k ++ '=' :: v) = trimL k ++ '=' :: trimR v := by
  unfold pyStrip
  rw [trimL_append_eq, trimR_append_eq]

lemma pyStrip_trimL (k : Str) : pyStrip (trimL k) = pyStrip k := by
  unfold pyStrip trimL
  rw [dropWhile_idem]

lemma split_at_first_eq (k v : Str) (h : ('=' : Char) ∉ k) :
    (k ++ '=' :: v).takeWhile (fun ch => ch != '=') = k ∧
    (k ++ '=' :: v).dropWhile (fun ch => ch != '=') = '=' :: v := by
  induction k with
  | nil =>
    constructor <;> simp [List.takeWhile_cons, List.dropWhile_cons]
  | cons c k' ih =>
    simp only [List.mem_cons, not_or] at h
    obtain ⟨h1, h2⟩ := h
    have hc : (c != '=') = true := by
      simp [bne]
      exact fun hh => h1 hh.symm
    obtain ⟨iht, ihd⟩ := ih h2
    constructor
    · simp only [List.cons_append, List.takeWhile_cons, hc, if_true]
      rw [iht]
    · simp only [List.cons_append, List.dropWhile_cons, hc, if_true]
      exact ihd

lemma mem_of_mem_trimL {c : Char} {k : Str} (h : c ∈ trimL k) : c ∈ k :=
  (List.dropWhile_sublist isWS).subset h

lemma parseLine_assignment (k v : Str) (hk : ('=' : Char) ∉ k)
    (hne : pyStrip k ≠ []) (hh : (trimL k).head? ≠ some '#') :
    parseLine (k ++ '=' :: v) = some { key := pyStrip k, value := trimR v } := by
  obtain ⟨c, k0, hck⟩ : ∃ c k0, trimL k = c :: k0 := by
    cases htl : trimL k with
    | nil =>
      exfalso
      apply hne
      unfold pyStrip
      rw [htl]
      rfl
    | cons c k0 => exact ⟨c, k0, rfl⟩
  have hc : c ≠ '#' := by
    rw [hck] at hh
    exact fun hcc => hh (by rw [List.head?_cons, hcc])
  have hkeq : ('=' : Char) ∉ trimL k := fun hmem => hk (mem_of_mem_trimL hmem)
  obtain ⟨htake, hdrop⟩ := split_at_first_eq (trimL k) (trimR v) hkeq
  have hcont : ((trimL k ++ '=' :: trimR v).contains '=') = true := by
    have hm : ('=' : Char) ∈ trimL k ++ '=' :: trimR v := by simp
    exact List.elem_eq_true_of_mem hm
  have hkey : pyStrip ((trimL k ++ '=' :: trimR v).takeWhile (fun ch => ch != '=')) =
      pyStrip k := by
    rw [htake, pyStrip_trimL]
  have hkeyne : (pyStrip ((trimL k ++ '=' :: trimR v).takeWhile
      (fun ch => ch != '='))).isEmpty = false := by
    rw [htake, pyStrip_trimL]
    cases hps : pyStrip k with
    | nil => exact absurd hps hne
    | cons a l => rfl
  unfold parseLine
  rw [pyStrip_assignment, hck]
  simp only [List.cons_append]
  rw [if_neg hc]
  rw [hck] at htake hdrop hcont hkey hkeyne
  simp only [List.cons_append] at htake hdrop hcont hkey hkeyne
  simp only [hcont, hkeyne, hkey, hdrop]
  simp
  exact hne

lemma markerFree_cons_elim {c d : Char} {l : Str}
    (h : markerFree (c :: d :: l) = true) :
    ((c == '\\' && d == 'n') = false) ∧ markerFree (d :: l) = true := by
  simp only [markerFree, Bool.and_eq_true, Bool.not_eq_true'] at h
  exact h

lemma markerFree_eqhead (v : Str) (hv : markerFree v = true) :
    markerFree ('=' :: v) = true := by
  cases v with
  | nil => rfl
  | cons d v' =>
    have h1 : (('=' : Char) == '\\') = false := by decide
    simp [markerFree, h1, hv]

lemma markerFree_line (k v : Str) (hk : markerFree k = true)
    (hv : markerFree v = true) : markerFree (k ++ '=' :: v) = true := by
  induction k with
  | nil => exact markerFree_eqhead v hv
  | cons c k' ih =>
    cases k' with
    | nil =>
      have h2 : (('=' : Char) == 'n') = false := by decide
      have hmv := markerFree_eqhead v hv
      simp [markerFree, h2, hmv]
    | cons d k'' =>
      obtain ⟨h1, h2⟩ := markerFree_cons_elim hk
      have ihh := ih h2
      simp only [List.cons_append] at ihh ⊢
      simp [markerFree, h1]
      exact ihh

lemma splitEsc_cons2 (c d : Char) (rest : Str) :
    splitEsc (c :: d :: rest) =
      if c == '\\' && d == 'n' then [] :: splitEsc rest
      else
        match splitEsc (d :: rest) with
        | l :: ls => (c :: l) :: ls
        | [] => [[c]] := by
  rw [splitEsc.eq_def]

lemma splitEsc_markerFree (l : Str) (h : markerFree l = true) :
    splitEsc l = [l] := by
  induction l with
  | nil => rfl
  | cons c l' ih =>
    cases l' with
    | nil => rfl
    | cons d l'' =>
      obtain ⟨h1, h2⟩ := markerFree_cons_elim h
      have ihh := ih h2
      simp [splitEsc, h1, ihh]

lemma splitEsc_append_marker (l r : Str) (h : markerFree l = true) :
    splitEsc (l ++ '\\' :: 'n' :: r) = l :: splitEsc r := by
  induction l with
  | nil => simp [splitEsc]
  | cons c l' ih =>
    cases l' with
    | nil =>
      have hfalse : ((c == '\\') && (('\\' : Char) == 'n')) = false := by
        have hbn : (('\\' : Char) == 'n') = false := by decide
        rw [hbn, Bool.and_false]
      have hmarker : splitEsc ('\\' :: 'n' :: r) = [] :: splitEsc r := by
        rw [splitEsc_cons2]
        simp
      simp only [List.singleton_append, List.cons_append, List.nil_append]
      rw [splitEsc_cons2, hmarker]
      simp [hfalse]
    | cons d l'' =>
      obtain ⟨h1, h2⟩ := markerFree_cons_elim h
      have ihh := ih h2
      simp only [List.cons_append] at ihh ⊢
      simp [splitEsc, h1, ihh]

lemma parseLine_roundTrippable (v : EnvVar) (h : RoundTrippable v) :
    parseLine (lineOf v) = some v := by
  obtain ⟨hml, hne, htl, htr, hhd, heq, hmk, hmv, htrv⟩ := h
  have hps : pyStrip v.key = v.key := by
    unfold pyStrip
    rw [htl, htr]
  have h1 := parseLine_assignment v.key v.value heq
    (by rw [hps]; exact hne) (by rw [htl]; exact hhd)
  rw [hps, htrv] at h1
  obtain ⟨k, val, ml⟩ := v
  simp only at hml
  subst hml
  exact h1

/-! ## Claim theorems -/

/-- C10: for every working copy and every `Delete` action at the top of the
log, `undo()` re-inserts the deleted entry at the *end* of the working copy
with `is_multiline = False` (the entry's original position and flag are not
restored), pops the action, and recomputes `dirty` from the remaining log. -/
theorem undo_delete_appends_at_end (vars : List EnvVar) (stack : List Action)
    (d : Bool) (k v : Str) (p o : Option Str) :
    action_undo ⟨vars, stack ++ [⟨.DELETE, k, v, p, o⟩], d⟩ =
      ⟨vars ++ [⟨k, v, false⟩], stack, !stack.isEmpty⟩ := by
  simp [action_undo, List.getLast?_concat, List.dropLast_concat]

/-- C5: for a key absent from the working copy (and provider), staging a set
(an add, log length 1, starting clean) and then a delete removes the `Set`
action without pushing any `Delete`: the state returns exactly to the clean
starting state (log empty, `dirty` false, key absent). -/
theorem delete_after_add_cancels (vars : List EnvVar) (K v : Str)
    (h : vars.find? (fun w => w.key == K) = none) :
    _stage_delete (_stage_set ⟨vars, [], false⟩ K v) K = ⟨vars, [], false⟩ := by
  have hfv : firstVal vars K = none := by simp [firstVal, h]
  have hfind : (vars ++ [({ key := K, value := v } : EnvVar)]).find?
      (fun w => w.key == K) = some { key := K, value := v } := by
    rw [find?_append_none _ _ _ h]
    exact List.find?_cons_of_pos _ (by simp)
  have hprior : (([({ kind := .SET, key := K, value := v } : Action)]).reverse).find?
      (fun a => a.key == K) = some { kind := .SET, key := K, value := v } := by
    simp only [List.reverse_cons, List.reverse_nil, List.nil_append]
    exact List.find?_cons_of_pos _ (by simp)
  simp only [_stage_set, hfv, _stage_delete, hfind, hprior]
  simp only [List.filter_append, filter_eq_self_of_find?_none vars K h]
  simp [List.erase_cons_head, bne]

/-- C5 witness: concrete instance with a one-entry working copy. -/
theorem delete_after_add_cancels_witness :
    _stage_delete (_stage_set ⟨[⟨['A'], ['x'], false⟩], [], false⟩ ['N'] ['v'])
        ['N'] = ⟨[⟨['A'], ['x'], false⟩], [], false⟩ :=
  delete_after_add_cancels [⟨['A'], ['x'], false⟩] ['N'] ['v'] (by decide)

/-- C4: for a provider-known key `K` with original value `orig` (starting
from a clean log), `stage_set(K, edited)` then `stage_delete(K)` leaves the
log equal to exactly one action `Delete(K, orig)` — carrying the original
pre-edit value, not the discarded edit — and removes `K` from the working
copy. -/
theorem delete_after_edit_keeps_original (vars : List EnvVar) (K orig edited : Str)
    (h : firstVal vars K = some orig) :
    _stage_delete (_stage_set ⟨vars, [], false⟩ K edited) K =
      ⟨vars.filter (fun w => w.key != K), [⟨.DELETE, K, orig, none, none⟩], true⟩ := by
  obtain ⟨w, hw⟩ : ∃ w, vars.find? (fun u => u.key == K) = some w := by
    unfold firstVal at h
    rcases hf : vars.find? (fun u => u.key == K) with _ | w
    · simp [hf] at h
    · exact ⟨w, hf⟩
  have hfind : (setFirstValue vars K edited).find? (fun u => u.key == K) =
      some { w with value := edited } := by
    rw [find?_setFirstValue, hw]; rfl
  have hprior : ([Action.mk .SET K edited (some orig) none]).reverse.find?
      (fun a => a.key == K) = some (Action.mk .SET K edited (some orig) none) := by
    simp only [List.reverse_cons, List.reverse_nil, List.nil_append]
    exact List.find?_cons_of_pos _ (by simp)
  simp only [_stage_set, h, _stage_delete, hfind, hprior]
  simp [filter_setFirstValue, List.erase_cons_head]

/-- C4 witness: concrete provider-known key `K = "o"` edited then deleted. -/
theorem delete_after_edit_keeps_original_witness :
    _stage_delete (_stage_set ⟨[⟨['K'], ['o'], false⟩, ⟨['B'], ['b'], false⟩], [], false⟩
        ['K'] ['e']) ['K'] =
      ⟨[⟨['B'], ['b'], false⟩], [⟨.DELETE, ['K'], ['o'], none, none⟩], true⟩ :=
  delete_after_edit_keeps_original
    [⟨['K'], ['o'], false⟩, ⟨['B'], ['b'], false⟩] ['K'] ['o'] ['e'] (by decide)

/-- C2 counterexample: with a provider-known key `K = "o"`, staging
`Set(K,"1")` then `Set(K,"2")` records `previous_value = "1"` (the
intermediate staged value, read from the working copy) on the second action —
not `"o"` as the claim states. -/
theorem stage_set_twice_counterexample :
    (_stage_set (_stage_set ⟨[⟨['K'], ['o'], false⟩], [], false⟩ ['K'] ['1'])
        ['K'] ['2']).undo_stack ≠
      [⟨.SET, ['K'], ['1'], some ['o'], none⟩, ⟨.SET, ['K'], ['2'], some ['o'], none⟩] ∧
    (_stage_set (_stage_set ⟨[⟨['K'], ['o'], false⟩], [], false⟩ ['K'] ['1'])
        ['K'] ['2']).undo_stack =
      [⟨.SET, ['K'], ['1'], some ['o'], none⟩, ⟨.SET, ['K'], ['2'], some ['1'], none⟩] := by
  constructor
  · decide
  · decide

/-- C2 amended: a repeated `stage_set` on the same key pushes a new `Set`
action whose `previous_value` is the key's *current working-copy value* at
stage time: after `stage_set(K,v1)` then `stage_set(K,v2)` on a key whose
working-copy value is `orig`, the two actions carry `previous_value = orig`
and `previous_value = v1` respectively. -/
theorem stage_set_twice_records_working_copy (st : StageState) (K orig v1 v2 : Str)
    (h : firstVal st.all_vars K = some orig) :
    (_stage_set (_stage_set st K v1) K v2).undo_stack =
      st.undo_stack ++
        [⟨.SET, K, v1, some orig, none⟩, ⟨.SET, K, v2, some v1, none⟩] := by
  simp [_stage_set, h, firstVal_setFirstValue st.all_vars K v1 orig h]

/-- C2 amended witness: concrete two-edit chain on `K = "o"`. -/
theorem stage_set_twice_records_working_copy_witness :
    (_stage_set (_stage_set ⟨[⟨['K'], ['o'], false⟩], [], false⟩ ['K'] ['1'])
        ['K'] ['2']).undo_stack =
      [] ++ [⟨.SET, ['K'], ['1'], some ['o'], none⟩, ⟨.SET, ['K'], ['2'], some ['1'], none⟩] :=
  stage_set_twice_records_working_copy ⟨[⟨['K'], ['o'], false⟩], [], false⟩
    ['K'] ['o'] ['1'] ['2'] (by decide)

/-- C1: `commit()` processes the log oldest-first; if the action after a
fully successful front of the log fails, the commit stops immediately: the
log afterwards is exactly the failed action followed by everything after it
(the committed front is removed), the provider is left in the state produced
by the successful front (plus any partial effect of the failing action
itself), and `is_dirty()` is still true. -/
theorem commit_partial_failure {σ : Type} (P : Provider σ) (st : StageState)
    (s0 s1 : σ) (front back : List Action) (a : Action) (e : Str)
    (hstack : st.undo_stack = front ++ a :: back)
    (hdirty : st.dirty = true)
    (hfront : runPre P s0 front = (s1, none))
    (hfail : (applyAction P s1 a).2 = some e) :
    _commit_staged P st s0 =
      (⟨st.all_vars, a :: back, true⟩, (applyAction P s1 a).1) := by
  unfold _commit_staged
  rw [hstack, hdirty,
    commitGo_fail_after P (front ++ a :: back) true a back e front s0 s1 [] hfront hfail]
  simp [foldl_erase_front]

/-- C1 witness: a log of 3 actions whose 2nd provider call fails; after
commit the log holds exactly actions 2 and 3, action 1's effect is in the
provider, and `dirty` is still true. -/
theorem commit_partial_failure_witness :
    _commit_staged witnessProvider
        ⟨[], [⟨.SET, ['a'], ['1'], none, none⟩, ⟨.SET, ['F'], ['2'], none, none⟩,
              ⟨.DELETE, ['c'], ['3'], none, none⟩], true⟩ [] =
      (⟨[], [⟨.SET, ['F'], ['2'], none, none⟩, ⟨.DELETE, ['c'], ['3'], none, none⟩], true⟩,
       [(['a'], ['1'])]) :=
  commit_partial_failure witnessProvider
    ⟨[], [⟨.SET, ['a'], ['1'], none, none⟩, ⟨.SET, ['F'], ['2'], none, none⟩,
          ⟨.DELETE, ['c'], ['3'], none, none⟩], true⟩
    [] [(['a'], ['1'])]
    [⟨.SET, ['a'], ['1'], none, none⟩] [⟨.DELETE, ['c'], ['3'], none, none⟩]
    ⟨.SET, ['F'], ['2'], none, none⟩ ['E'] rfl rfl (by decide) (by decide)

/-- C3 counterexample: committing the single staged action
`Rename(old_key="O", new_key="N")` against a provider holding `O=v`, where
the `delete("O")` call succeeds and the `create("N", v)` call fails, leaves
the provider empty — the delete is applied, the create is not — while the
`Rename` action remains in the log and `dirty` stays true.  A single action
was partially applied, contradicting the claim. -/
theorem rename_commit_not_atomic_counterexample :
    _commit_staged renameFailProvider
        ⟨[⟨['N'], ['v'], false⟩], [⟨.RENAME, ['N'], ['v'], none, some ['O']⟩], true⟩
        [(['O'], ['v'])] =
      (⟨[⟨['N'], ['v'], false⟩], [⟨.RENAME, ['N'], ['v'], none, some ['O']⟩], true⟩,
       []) := by
  decide

/-- C3 amended: commit never partially applies a single `Set` or `Delete`
action — each is one provider call, and on failure that action leaves the
provider state unchanged.  (A `Rename` is two provider calls and *can* be
left half-applied, as the counterexample shows.) -/
theorem set_delete_commit_atomic {σ : Type} (P : Provider σ) (s : σ) (a : Action)
    (e : Str) (hk : a.kind = ActionKind.SET ∨ a.kind = ActionKind.DELETE)
    (hfail : (applyAction P s a).2 = some e) :
    (applyAction P s a).1 = s := by
  obtain ⟨k, key, val, pv, ok⟩ := a
  rcases hk with hk | hk
  · have hk' : k = ActionKind.SET := hk
    subst hk'
    cases pv with
    | none => exact callP_fail _ _ e hfail
    | some _ => exact callP_fail _ _ e hfail
  · have hk' : k = ActionKind.DELETE := hk
    subst hk'
    exact callP_fail _ _ e hfail

/-- C3 amended witness: a failing `create` for a staged add leaves the
provider state exactly as it was. -/
theorem set_delete_commit_atomic_witness :
    (applyAction renameFailProvider [(['O'], ['v'])]
        ⟨.SET, ['N'], ['x'], none, none⟩).2 = some ['E'] ∧
    (applyAction renameFailProvider [(['O'], ['v'])]
        ⟨.SET, ['N'], ['x'], none, none⟩).1 = [(['O'], ['v'])] :=
  ⟨by decide,
   set_delete_commit_atomic renameFailProvider [(['O'], ['v'])]
     ⟨.SET, ['N'], ['x'], none, none⟩ ['E'] (Or.inl rfl) (by decide)⟩

/-- C8: evaluating the code at the failing input.  For a hybrid provider
freshly constructed with the single secret name `"K"` (value not yet
fetched), `get("K")` returns `None` — exactly the same result as
`get("A")` for a key absent from the vault.  There is no loading sentinel
distinguishable from absence, and the callers' check
`self._provider.get(key) == "Loading..."` in `app.py` can never be true. -/
theorem hybrid_get_loading_indistinguishable :
    hybridGet (hybridInit [['K']]) ['K'] = none ∧
    hybridGet (hybridInit [['K']]) ['A'] = none ∧
    hybridGet (hybridInit [['K']]) ['K'] = hybridGet (hybridInit [['K']]) ['A'] := by
  decide

/-- C9: evaluating the code at the failing input.  After the sequence
`set K v; rename K→M; set K w; delete M` from the empty synced state, the
rename-collapse in `_stage_delete` leaves the log
`[Set(K,v,None), Set(K,w,None), Delete(K,v)]`; replaying it oldest-first
against the synced (empty) provider state ends with `delete("K")`, so the
replayed provider state lacks `K` — while the working copy still contains
`K = "w"`.  The log is not replayable to the current working copy. -/
theorem replay_invariant_violated :
    c9State.undo_stack =
      [⟨.SET, ['K'], ['v'], none, none⟩, ⟨.SET, ['K'], ['w'], none, none⟩,
       ⟨.DELETE, ['K'], ['v'], none, none⟩] ∧
    firstVal c9State.all_vars ['K'] = some ['w'] ∧
    (replayA [] c9State.undo_stack).find? (fun p => p.1 == ['K']) = none := by
  decide

/-- C7 amended: `parse_dotenv_blob` maps the lines of the blob, in order,
through the per-line parser; and on an assignment line `key ++ "=" ++ value`
(key without `=`, key not stripping to empty, key not starting with `#`
after left-trim) the per-line parser first strips whitespace from *both*
ends of the line — so trailing whitespace of the value is removed — then
splits on the first `=` and additionally strips the key: the result is
`{key: strip(key), value: rtrim(value)}`, not the unchanged value the claim
describes. -/
theorem parse_splits_on_first_eq :
    (∀ blob : Str, parse_dotenv_blob blob = (splitEsc blob).filterMap parseLine) ∧
    (∀ k v : Str, ('=' : Char) ∉ k → pyStrip k ≠ [] → (trimL k).head? ≠ some '#' →
      parseLine (k ++ '=' :: v) = some { key := pyStrip k, value := trimR v }) :=
  ⟨fun _ => rfl, fun k v h1 h2 h3 => parseLine_assignment k v h1 h2 h3⟩

/-- C7 witness: the line `" A=x =y "` parses to key `"A"`, value `"x =y"` —
the first `=` splits, the key is stripped, and the value keeps its inner
`=` and inner space but loses its trailing space. -/
theorem parse_splits_on_first_eq_witness :
    parseLine ([' ', 'A'] ++ '=' :: ['x', ' ', '=', 'y', ' ']) =
      some { key := pyStrip [' ', 'A'], value := trimR ['x', ' ', '=', 'y', ' '] } :=
  parse_splits_on_first_eq.2 [' ', 'A'] ['x', ' ', '=', 'y', ' ']
    (by decide) (by decide) (by decide)

/-- C7 counterexample: the blob `"A=x "` (trailing space in the value)
parses to value `"x"`, not the claimed unchanged value `"x "` — whitespace
is trimmed from the whole line, not from the key only. -/
theorem parse_value_trimmed_counterexample :
    parse_dotenv_blob ['A', '=', 'x', ' '] = [⟨['A'], ['x'], false⟩] ∧
    parse_dotenv_blob ['A', '=', 'x', ' '] ≠ [⟨['A'], ['x', ' '], false⟩] := by
  decide

/-- C6 counterexample: the single entry `A = "x "` has a unique non-empty
key and a value free of the escaped-newline marker, yet
`parse(encode([A="x "])) = [A="x"]` — the trailing space of the value is
lost, so the round-trip fails as claimed. -/
theorem parse_encode_roundtrip_counterexample :
    parse_dotenv_blob (encode_dotenv_blob [⟨['A'], ['x', ' '], false⟩]) =
      [⟨['A'], ['x'], false⟩] ∧
    parse_dotenv_blob (encode_dotenv_blob [⟨['A'], ['x', ' '], false⟩]) ≠
      [⟨['A'], ['x', ' '], false⟩] := by
  decide

/-- C6 amended: `parse(encode(vars)) = vars` for every list of single-line
entries with unique non-empty keys, where keys additionally contain no `=`,
no leading `#`, no surrounding whitespace and no escaped-newline marker, and
values contain no escaped-newline marker and no trailing whitespace. -/
theorem parse_encode_roundtrip (vars : List EnvVar)
    (huniq : vars.Pairwise (fun a b => a.key ≠ b.key))
    (hgood : ∀ v ∈ vars, RoundTrippable v) :
    parse_dotenv_blob (encode_dotenv_blob vars) = vars := by
  induction vars with
  | nil => rfl
  | cons v rest ih =>
    have hv := hgood v (List.mem_cons_self v rest)
    have hline : parseLine (lineOf v) = some v := parseLine_roundTrippable v hv
    have hmfl : markerFree (lineOf v) = true := by
      obtain ⟨-, -, -, -, -, -, hmk, hmv, -⟩ := hv
      exact markerFree_line v.key v.value hmk hmv
    have ihh := ih huniq.of_cons (fun w hw => hgood w (List.mem_cons_of_mem v hw))
    cases rest with
    | nil =>
      simp only [encode_dotenv_blob, List.map_cons, List.map_nil, joinM]
      rw [parse_dotenv_blob, splitEsc_markerFree _ hmfl]
      simp [hline]
    | cons w rest' =>
      simp only [encode_dotenv_blob, List.map_cons, joinM]
      rw [parse_dotenv_blob, splitEsc_append_marker _ _ hmfl]
      simp only [List.filterMap_cons, hline]
      simp only [encode_dotenv_blob, List.map_cons, parse_dotenv_blob] at ihh
      rw [ihh]

/-- C6 amended witness: a two-entry list (one value containing `=`)
round-trips exactly. -/
theorem parse_encode_roundtrip_witness :
    parse_dotenv_blob (encode_dotenv_blob
        [⟨['D', 'B'], ['x'], false⟩, ⟨['P'], ['=', 'y'], false⟩]) =
      [⟨['D', 'B'], ['x'], false⟩, ⟨['P'], ['=', 'y'], false⟩] :=
  parse_encode_roundtrip [⟨['D', 'B'], ['x'], false⟩, ⟨['P'], ['=', 'y'], false⟩]
    (by decide) (by decide)

end Kvt
